import Mathlib

/-!
Verification development for the cell-analyzer statistics and export module
(tracker_library/export_data.py), shallowly embedded in Lean.

Coordinates and areas are modelled as exact rationals; geometric quantities
(Euclidean distances, direction angles) as real numbers.  Fallible Python
code (exceptions) is modelled with the `Except` monad, and every division
the Python code performs is a checked division, so a successful result
certifies that no division by zero occurred.
-/

/-- Errors the Python module can raise. -/
inductive PyErr where
  | emptyData
  | indexError
  | zeroDivision
  | valueError
  | stopIteration
  | keyError
  | unsupportedFormat
  | fileAlreadyExists
deriving DecidableEq, Repr

/-- Value stored in a statistics report: exact-rational quantities, real
geometric quantities, strings, integer cell ids, and the Python None. -/
inductive StatValue where
  | real (x : ℝ)
  | rat (x : ℚ)
  | str (s : String)
  | nat (n : ℕ)
  | pynone

/-- Tracked point: the (x, y) coordinate of a cell in one frame. -/
abbrev Point := ℚ × ℚ

/-- Decidable equality of fallible results, for evaluating the embedding on
concrete inputs. -/
instance exceptDecEq {ε α : Type*} [DecidableEq ε] [DecidableEq α] :
    DecidableEq (Except ε α)
  | .error e, .error f => decidable_of_iff (e = f) (by simp)
  | .error _, .ok _ => isFalse (by simp)
  | .ok _, .error _ => isFalse (by simp)
  | .ok a, .ok b => decidable_of_iff (a = b) (by simp)

/-- Python float modulo, a - b * floor(a / b), the semantics of the percent
operator used in the angle computation. -/
noncomputable def fmod (a b : ℝ) : ℝ := a - b * ⌊a / b⌋

/-- Radians-to-degrees conversion from the source, angle * (180 / math.pi). -/
noncomputable def rad2deg (r : ℝ) : ℝ := r * (180 / Real.pi)

/-- Model of math.atan2 y x, via the complex argument of x + y i, which has
the same value and the same range (-pi, pi]. -/
noncomputable def atan2 (y x : ℝ) : ℝ := Complex.arg (x + y * Complex.I)

/-- Reflected direction angle between two points, from the source:
360 - ((math.atan2(y - prevy, x - prevx) * (180 / math.pi)) % 360). -/
noncomputable def angleOf (p q : Point) : ℝ :=
  360 - fmod (rad2deg (atan2 ((q.2 : ℝ) - (p.2 : ℝ)) ((q.1 : ℝ) - (p.1 : ℝ)))) 360

/-- Model of math.dist: Euclidean distance between two points. -/
noncomputable def dist2 (p q : Point) : ℝ :=
  Real.sqrt (((q.1 : ℝ) - (p.1 : ℝ)) ^ 2 + ((q.2 : ℝ) - (p.2 : ℝ)) ^ 2)

/-- Consecutive point pairs that contribute a step in the culture-wide loop:
the pair (data[i-1], data[i]) is kept exactly when the current point data[i]
is not the (0, 0) placeholder, mirroring the guard
"data[i][0] != 0 or data[i][1] != 0". -/
def culturePairs : List Point → List (Point × Point)
  | [] => []
  | [_] => []
  | p :: q :: rest =>
      (if q.1 ≠ 0 ∨ q.2 ≠ 0 then [(p, q)] else []) ++ culturePairs (q :: rest)

/-- Accumulation loop over per-step area deltas from the single-cell
statistics: change += areas[i] - areas[i-1] for i = 1 .. N-1. -/
def sumDeltas : List ℚ → ℚ
  | [] => 0
  | [_] => 0
  | a :: b :: rest => (b - a) + sumDeltas (b :: rest)

/-- Statistic "Average Change in Cell Size Between one Interval": the delta
sum divided by len(areas), the total frame count. -/
def avgSizeChange (areas : List ℚ) : ℚ := sumDeltas areas / (areas.length : ℚ)

/-- Python max over a list; ValueError on the empty list. -/
def pymax {α : Type*} [Max α] : List α → Except PyErr α
  | [] => .error .valueError
  | a :: rest => .ok (rest.foldl Max.max a)

/-- Python min over a list; ValueError on the empty list. -/
def pymin {α : Type*} [Min α] : List α → Except PyErr α
  | [] => .error .valueError
  | a :: rest => .ok (rest.foldl Min.min a)

/-- Total-function maximum of a list of reals (0 for the empty list). -/
def pymaxD : List ℝ → ℝ
  | [] => 0
  | a :: rest => rest.foldl Max.max a

/-- Minimum of a nonempty rational series, min(value); 0 on the empty list. -/
def cellMin : List ℚ → ℚ
  | [] => 0
  | a :: rest => rest.foldl Min.min a

/-- Maximum of a nonempty rational series, max(value); 0 on the empty list. -/
def cellMax : List ℚ → ℚ
  | [] => 0
  | a :: rest => rest.foldl Max.max a

/-- Step distances of the single-cell loop, dist(data[i-1], data[i]) for
i = 1 .. N-1, with no placeholder filtering. -/
noncomputable def indivDistances (T : List Point) : List ℝ :=
  List.zipWith dist2 T T.tail

/-- Distances from the frame-0 origin point to each later point. -/
noncomputable def originDistances : List Point → List ℝ
  | [] => []
  | p :: rest => rest.map (dist2 p)

/-- Step speeds of the single-cell loop: each step distance divided by the
time between frames. -/
noncomputable def indivSpeeds (T : List Point) (t : ℚ) : List ℝ :=
  (indivDistances T).map (fun d => d / (t : ℝ))

/-- Step direction angles of the single-cell loop. -/
noncomputable def indivAngles (T : List Point) : List ℝ :=
  List.zipWith angleOf T T.tail

/-- Python round: round-half-to-even banker rounding to an integer. -/
noncomputable def pyround (x : ℝ) : ℤ :=
  if Int.fract x = 1 / 2 then (if ⌊x⌋ % 2 = 0 then ⌊x⌋ else ⌊x⌋ + 1)
  else round x

/-- Python list indexing, including negative-index wraparound; out-of-range
indices give an IndexError, modelled as none. -/
def pyListGet {α : Type*} (l : List α) (i : ℤ) : Option α :=
  if 0 ≤ i then l.get? i.toNat
  else if (-i).toNat ≤ l.length then l.get? (l.length - (-i).toNat)
  else Option.none

/-- Nine-entry compass lookup table from the source, whose first and last
entries are both "E". -/
def compass_brackets : List String := ["E", "NE", "N", "NW", "W", "SW", "S", "SE", "E"]

/-- Value of the loop variables (x, y) after the single-cell loop: the last
trajectory point when the loop ran, otherwise their initialization (0, 0). -/
def lastLoopPoint : List Point → Point
  | [] => (0, 0)
  | [_] => (0, 0)
  | _ :: q :: rest => (q :: rest).getLastD (0, 0)

/-- Statistic "Final Distance from Origin". -/
noncomputable def finalDistanceFromOrigin (T : List Point) : ℝ :=
  dist2 (T.headD (0, 0)) (lastLoopPoint T)

/-- Statistic "Maximum Distance from Origin" (0 when no distances exist). -/
noncomputable def maxOriginDistance (T : List Point) : ℝ :=
  pymaxD (originDistances T)

/-- Real division, raising ZeroDivisionError on a zero denominator. -/
noncomputable def rdiv (a b : ℝ) : Except PyErr ℝ :=
  if b = 0 then .error .zeroDivision else .ok (a / b)

/-- Rational division, raising ZeroDivisionError on a zero denominator. -/
def qdiv (a b : ℚ) : Except PyErr ℚ :=
  if b = 0 then .error .zeroDivision else .ok (a / b)

/-- Lift a Python indexing result into the error monad. -/
def ofIndex {α : Type*} : Option α → Except PyErr α
  | Option.none => .error .indexError
  | some a => .ok a

/-- Single-cell statistics computation calc_individual_cell_statistics.
The None input hits the final "else: raise" branch; the empty list raises
IndexError at the origin access data[0][0]. -/
noncomputable def calc_individual_cell_statistics (data : Option (List Point))
    (areas : List ℚ) (time_between_frames : ℚ) (units : String) :
    Except PyErr (List (String × StatValue)) :=
  match data with
  | Option.none => .error .emptyData
  | some [] => .error .indexError
  | some (p :: rest) => do
      let T := p :: rest
      let distances := indivDistances T
      let origin_distances := originDistances T
      let speeds ← distances.mapM (fun d => rdiv d (time_between_frames : ℝ))
      let angles := indivAngles T
      let final_angle : ℝ := match rest with
        | [] => 0
        | _ :: _ => angleOf p (rest.getLastD p)
      let maxOrigin ← pymax origin_distances
      let avgOrigin ← rdiv origin_distances.sum (origin_distances.length : ℝ)
      let maxStep ← pymax distances
      let maxSpeed ← pymax speeds
      let avgSpeed ← rdiv speeds.sum (speeds.length : ℝ)
      let avgAngle ← rdiv angles.sum (angles.length : ℝ)
      let compass ← ofIndex (pyListGet compass_brackets (pyround (final_angle / 45)))
      let maxArea ← pymax areas
      let minArea ← pymin areas
      let avgArea ← qdiv areas.sum (areas.length : ℚ)
      let avgChange ← qdiv (sumDeltas areas) (areas.length : ℚ)
      .ok [("Total Displacement (" ++ units ++ ")", .real distances.sum),
           ("Final Distance from Origin (" ++ units ++ ")", .real (finalDistanceFromOrigin T)),
           ("Maximum Distance from Origin (" ++ units ++ ")", .real maxOrigin),
           ("Average Distance from Origin (" ++ units ++ ")", .real avgOrigin),
           ("Maximum Distance Traveled in one Interval (" ++ units ++ ")", .real maxStep),
           ("Maximum Speed (" ++ units ++ "/min)", .real maxSpeed),
           ("Average Speed (" ++ units ++ "/min)", .real avgSpeed),
           ("Average Angle of Direction from Origin (degrees)", .real avgAngle),
           ("Angle of Direction between Origin and Final Point (degrees)", .real final_angle),
           ("Compass Direction Moved", .str compass),
           ("Maximum Size (" ++ units ++ "^2)", .rat maxArea),
           ("Minimum Size (" ++ units ++ "^2)", .rat minArea),
           ("Average Size (" ++ units ++ "^2)", .rat avgArea),
           ("Change in Cell Size (" ++ units ++ "^2)", .rat (areas.getLastD 0 - areas.headD 0)),
           ("Average Change in Cell Size Between one Interval (" ++ units ++ "^2)",
             .rat avgChange)]

/-- Movement accumulators of the culture-wide computation. -/
structure MoveAcc where
  displacements : List ℝ
  final_distances : List ℝ
  speeds : List ℝ
  angles : List ℝ

/-- Processing of one cell trajectory inside the positional loop of
calc_culture_cell_statistics: None trajectories are skipped, an empty
trajectory raises IndexError at data[0][0], contributing steps (current
point not the placeholder) append a distance and a speed, and the final
frame additionally appends the displacement, the final origin distance and
the final angle when it contributes. -/
noncomputable def cellStep (t : ℚ) (acc : MoveAcc) (traj : Option (List Point)) :
    Except PyErr MoveAcc :=
  match traj with
  | Option.none => .ok acc
  | some [] => .error .indexError
  | some (p :: rest) => do
      let dists := (culturePairs (p :: rest)).map (fun pr => dist2 pr.1 pr.2)
      let spds ← dists.mapM (fun d => rdiv d (t : ℝ))
      match rest with
      | [] => .ok { acc with speeds := acc.speeds ++ spds }
      | _ :: _ =>
          let lastPt := rest.getLastD p
          if lastPt.1 ≠ 0 ∨ lastPt.2 ≠ 0 then
            .ok { displacements := acc.displacements ++ [dists.sum],
                  final_distances := acc.final_distances ++ [dist2 p lastPt],
                  speeds := acc.speeds ++ spds,
                  angles := acc.angles ++ [angleOf p lastPt] }
          else .ok { acc with speeds := acc.speeds ++ spds }

/-- Positional loop of calc_culture_cell_statistics over all cells. -/
noncomputable def cultureMovementAux (t : ℚ) :
    List (ℕ × Option (List Point)) → MoveAcc → Except PyErr MoveAcc
  | [], acc => .ok acc
  | kv :: rest, acc =>
      match cellStep t acc kv.2 with
      | .error e => .error e
      | .ok acc2 => cultureMovementAux t rest acc2

/-- Positional loop started from the empty accumulators. -/
noncomputable def cultureMovement (pos : List (ℕ × Option (List Point))) (t : ℚ) :
    Except PyErr MoveAcc :=
  cultureMovementAux t pos ⟨[], [], [], []⟩

/-- Area-loop accumulators of calc_culture_cell_statistics. -/
structure AreaAcc where
  final_sizes : List ℚ
  growth : List ℚ
  max_cell_size : ℚ
  max_cell_id : ℕ
  min_cell_size : Option ℚ
  min_cell_id : ℕ
deriving DecidableEq, Repr

/-- Guard of the running-minimum update: "min(value) != 0 and
(min_cell_size is None or min(value) < min_cell_size)". -/
def minQual (o : Option ℚ) (mn : ℚ) : Bool :=
  mn != 0 && (match o with
              | Option.none => true
              | some m => decide (mn < m))

/-- One iteration of the area loop of calc_culture_cell_statistics: min/max
bookkeeping with the guards "min(value) != 0 and (min_cell_size is None or
min(value) < min_cell_size)" and "max_cell_size < max(value)", then the
final-size append, then the first-nonzero growth lookup which raises
StopIteration when every area of the cell is zero. -/
def areaStep (acc : AreaAcc) (k : ℕ) (v : List ℚ) : Except PyErr AreaAcc :=
  match v with
  | [] => .error .valueError
  | a :: rest =>
      let mn := cellMin (a :: rest)
      let mx := cellMax (a :: rest)
      let acc1 :=
        if minQual acc.min_cell_size mn then
          { acc with min_cell_size := some mn, min_cell_id := k }
        else acc
      let acc2 :=
        if acc1.max_cell_size < mx then { acc1 with max_cell_size := mx, max_cell_id := k }
        else acc1
      let acc3 := { acc2 with final_sizes := acc2.final_sizes ++ [(a :: rest).getLastD 0] }
      match (a :: rest).find? (fun x => x != 0) with
      | Option.none => .error .stopIteration
      | some w => .ok { acc3 with growth := acc3.growth ++ [(a :: rest).getLastD 0 - w] }

/-- Area loop of calc_culture_cell_statistics over all cells. -/
def cultureAreaAux : List (ℕ × List ℚ) → AreaAcc → Except PyErr AreaAcc
  | [], acc => .ok acc
  | kv :: rest, acc =>
      match areaStep acc kv.1 kv.2 with
      | .error e => .error e
      | .ok acc2 => cultureAreaAux rest acc2

/-- Initial area accumulator: running max 0 owned by id 0, running min None
owned by id 0. -/
def areaAcc0 : AreaAcc := ⟨[], [], 0, 0, Option.none, 0⟩

/-- Area loop started from the initial accumulator. -/
def cultureArea (ad : List (ℕ × List ℚ)) : Except PyErr AreaAcc :=
  cultureAreaAux ad areaAcc0

/-- Total description of one area-loop iteration, valid on cells whose
first-nonzero lookup succeeds. -/
def pureAreaStep (acc : AreaAcc) (k : ℕ) (v : List ℚ) : AreaAcc :=
  match v with
  | [] => acc
  | a :: rest =>
      { final_sizes := acc.final_sizes ++ [(a :: rest).getLastD 0],
        growth := acc.growth ++
          [(a :: rest).getLastD 0 - (((a :: rest).find? (fun x => x != 0)).getD 0)],
        max_cell_size :=
          if acc.max_cell_size < cellMax (a :: rest) then cellMax (a :: rest)
          else acc.max_cell_size,
        max_cell_id :=
          if acc.max_cell_size < cellMax (a :: rest) then k else acc.max_cell_id,
        min_cell_size :=
          if minQual acc.min_cell_size (cellMin (a :: rest)) then some (cellMin (a :: rest))
          else acc.min_cell_size,
        min_cell_id :=
          if minQual acc.min_cell_size (cellMin (a :: rest)) then k
          else acc.min_cell_id }

/-- Total description of the whole area loop. -/
def pureAreaFold : List (ℕ × List ℚ) → AreaAcc → AreaAcc
  | [], acc => acc
  | kv :: rest, acc => pureAreaFold rest (pureAreaStep acc kv.1 kv.2)

/-- Culture-wide statistics computation calc_culture_cell_statistics.
Movement-derived entries are produced only when the displacements
accumulator is nonempty; the confluency, largest/smallest cell and average
final size entries are always produced. -/
noncomputable def calc_culture_cell_statistics (pos : List (ℕ × Option (List Point)))
    (ad : List (ℕ × List ℚ)) (time_between_frames : ℚ) (area_of_frame : ℚ)
    (units : String) : Except PyErr (List (String × StatValue)) := do
  let m ← cultureMovement pos time_between_frames
  let a ← cultureArea ad
  let movementStats : List (String × StatValue) ←
    match m.displacements with
    | [] => pure []
    | _ :: _ => do
        let avgDisp ← rdiv m.displacements.sum (m.displacements.length : ℝ)
        let maxDisp ← pymax m.displacements
        let minDisp ← pymin m.displacements
        let avgFinal ← rdiv m.final_distances.sum (m.final_distances.length : ℝ)
        let avgSpeed ← rdiv m.speeds.sum (m.speeds.length : ℝ)
        let maxSpeed ← pymax m.speeds
        let minSpeed ← pymin m.speeds
        let avgAngle ← rdiv m.angles.sum (m.angles.length : ℝ)
        let compass ← ofIndex (pyListGet compass_brackets (pyround (avgAngle / 45)))
        let avgGrowth ← qdiv a.growth.sum (a.growth.length : ℚ)
        pure [("Average Total Displacement (" ++ units ++ ")", .real avgDisp),
              ("Max Distance Traveled by one Cell (" ++ units ++ ")", .real maxDisp),
              ("Min Distance Traveled by one Cell (" ++ units ++ ")", .real minDisp),
              ("Average Final Distance from Origin (" ++ units ++ ")", .real avgFinal),
              ("Average Speed (" ++ units ++ "/min)", .real avgSpeed),
              ("Maximum Recorded Speed (" ++ units ++ "/min)", .real maxSpeed),
              ("Minimum Recorded Speed (" ++ units ++ "/min)", .real minSpeed),
              ("Average Angle of Direction between Origin and Final Point (degrees)",
                .real avgAngle),
              ("Average Compass Direction Moved", .str compass),
              ("Average Change in Cell Size (" ++ units ++ "^2)", .rat avgGrowth)]
  let confluency ← qdiv a.final_sizes.sum area_of_frame
  let avgFinalSize ← qdiv a.final_sizes.sum (a.final_sizes.length : ℚ)
  .ok (movementStats ++
    [("Final Frame\x27s Confluency (%)", .rat confluency),
     ("Largest Cell (" ++ units ++ "^2)", .rat a.max_cell_size),
     ("Largest Cell\x27s ID", .nat a.max_cell_id),
     ("Smallest Cell (" ++ units ++ "^2)",
       match a.min_cell_size with | Option.none => .pynone | some q => .rat q),
     ("Smallest Cell\x27s ID", .nat a.min_cell_id),
     ("Average Final Size of Cell (" ++ units ++ "^2)", .rat avgFinalSize)])

/-- Contents of a written CSV file: the header row and the numeric data rows. -/
structure CsvFile where
  header : List String
  rows : List (List ℚ)
deriving DecidableEq, Repr

/-- Extension check filename.endswith(suffix), on the character data of the
strings. -/
def strEndsWith (s suffix : String) : Bool := suffix.data.isSuffixOf s.data

/-- Dictionary lookup area_data[id], raising KeyError when absent. -/
def lookupArea (ad : List (ℕ × List ℚ)) (k : ℕ) : Except PyErr (List ℚ) :=
  match ad.find? (fun kv => kv.1 == k) with
  | some kv => .ok kv.2
  | Option.none => .error .keyError

/-- Culture raw-data CSV export culture_to_csv_file, acting on a filesystem
modelled as a list of (filename, contents) pairs and returning the new
filesystem.  The extension check comes first, then the existing-file check
(both before anything is written); only then are the rows assembled and the
file created. -/
def culture_to_csv_file (fs : List (String × CsvFile)) (filename : String)
    (pos : List (ℕ × List Point)) (ad : List (ℕ × List ℚ))
    (positional_headers area_headers : List String) :
    Except PyErr (List (String × CsvFile)) :=
  if ¬ strEndsWith filename ".csv" then .error .unsupportedFormat
  else if fs.any (fun f => f.1 == filename) then .error .fileAlreadyExists
  else match pos with
    | [] => .error .indexError
    | _ :: _ => do
        let rows ← pos.mapM (fun kv => do
          let ar ← lookupArea ad kv.1
          pure (((kv.1 : ℚ) :: kv.2.flatMap (fun c => [c.1, c.2])) ++ ar))
        .ok (fs ++ [(filename, ⟨positional_headers ++ area_headers, rows⟩)])

/-- Bounds of the float modulo for a positive modulus. -/
theorem fmod_bounds (a : ℝ) {b : ℝ} (hb : 0 < b) : 0 ≤ fmod a b ∧ fmod a b < b := by
  unfold fmod
  constructor
  · have h := Int.floor_le (a / b)
    have h2 : b * (⌊a / b⌋ : ℝ) ≤ b * (a / b) := mul_le_mul_of_nonneg_left h hb.le
    have hba : b * (a / b) = a := by field_simp
    linarith
  · have h := Int.lt_floor_add_one (a / b)
    have h2 : b * (a / b) < b * ((⌊a / b⌋ : ℝ) + 1) := mul_lt_mul_of_pos_left h hb
    have hba : b * (a / b) = a := by field_simp
    nlinarith

/-- Range of the reflected angle expression 360 - (r % 360): it always lies
in the half-open interval (0, 360]. -/
theorem reflect_mem_Ioc (r : ℝ) : 360 - fmod r 360 ∈ Set.Ioc (0:ℝ) 360 := by
  obtain ⟨h1, h2⟩ := fmod_bounds r (by norm_num : (0:ℝ) < 360)
  exact ⟨by linarith, by linarith⟩

/-- Every reflected direction angle lies in (0, 360]. -/
theorem angleOf_mem_Ioc (p q : Point) : angleOf p q ∈ Set.Ioc (0:ℝ) 360 :=
  reflect_mem_Ioc _

/-- C4 (counterexample): the step from (0,0) to (1,0) has raw atan2 value 0,
so the reflected angle is exactly 360, which is outside [0, 360). -/
theorem C4_counterexample :
    angleOf (0, 0) (1, 0) = 360 ∧ (360:ℝ) ∉ Set.Ico (0:ℝ) 360 := by
  constructor
  · unfold angleOf atan2 rad2deg fmod
    push_cast
    norm_num
  · norm_num [Set.mem_Ico]

/-- C4 (amended): the reflected step-direction angle 360 - (raw mod 360)
always lies in the half-open interval (0, 360]: never negative, never more
than 360, but it attains exactly 360 whenever the raw degree value is a
multiple of 360 (for example a purely rightward step). -/
theorem C4_angle_range (p q : Point) : angleOf p q ∈ Set.Ioc (0:ℝ) 360 :=
  angleOf_mem_Ioc p q

/-- Telescoping of the per-step delta loop: the accumulated change equals
the last area minus the first. -/
theorem sumDeltas_telescope (a : ℚ) (l : List ℚ) :
    sumDeltas (a :: l) = l.getLastD a - a := by
  induction l generalizing a with
  | nil => simp [sumDeltas]
  | cons b r ih =>
      simp only [sumDeltas]
      rw [ih b, List.getLastD_cons]
      ring

/-- C6: for every area series of length N at least 1, the Average Change in
Cell Size Between one Interval statistic equals (last area - first area)
divided by N, the total frame count (not the step count N-1): the delta loop
telescopes to last minus first before the division. -/
theorem C6_avg_size_change (a : ℚ) (rest : List ℚ) :
    avgSizeChange (a :: rest) =
      ((a :: rest).getLastD 0 - a) / ((a :: rest).length : ℚ) := by
  unfold avgSizeChange
  rw [sumDeltas_telescope, List.getLastD_cons]

/-- C1 (counterexample): in the culture-wide loop, the trajectory
[(1,1), (0,0), (3,4)] contributes exactly one step pair, and that pair has
the placeholder (0,0) as its previous endpoint: a placeholder frame is used
as a real previous position. -/
theorem C1_counterexample :
    culturePairs [(1, 1), (0, 0), (3, 4)] =
      [(((0:ℚ), (0:ℚ)), ((3:ℚ), (4:ℚ)))] := by decide

/-- C1 (amended): the culture-wide loop skips a consecutive pair exactly
when its current endpoint is the placeholder: every contributing pair has a
non-placeholder current point, but the previous endpoint may still be the
placeholder (0,0). -/
theorem C1_skip_current_only (T : List Point) (pr : Point × Point)
    (h : pr ∈ culturePairs T) : pr.2.1 ≠ 0 ∨ pr.2.2 ≠ 0 := by
  induction T with
  | nil => simp [culturePairs] at h
  | cons p rest ih =>
      cases rest with
      | nil => simp [culturePairs] at h
      | cons q rs =>
          simp only [culturePairs, List.mem_append] at h
          rcases h with h | h
          · split_ifs at h with hc
            · rw [List.mem_singleton] at h
              subst h
              exact hc
            · simp at h
          · exact ih h

/-- Witness for C1: the contributing pair of the counterexample trajectory
indeed has a non-placeholder current endpoint. -/
theorem C1_witness :
    (((0:ℚ), (0:ℚ)), ((3:ℚ), (4:ℚ))) ∈ culturePairs [(1, 1), (0, 0), (3, 4)] ∧
    ((3:ℚ) ≠ 0 ∨ (4:ℚ) ≠ 0) :=
  ⟨by decide,
   C1_skip_current_only [(1, 1), (0, 0), (3, 4)]
     (((0:ℚ), (0:ℚ)), ((3:ℚ), (4:ℚ))) (by decide)⟩

/-- C3 (counterexample): on the empty (zero-length) trajectory the
single-cell computation fails with an IndexError at the origin access, not
with the EmptyInputError raised for an absent trajectory. -/
theorem C3_counterexample :
    calc_individual_cell_statistics (some []) [1] 1 "mm" =
      .error .indexError ∧ PyErr.indexError ≠ PyErr.emptyData :=
  ⟨rfl, by decide⟩

/-- C3 (amended): an absent (None) trajectory fails with the
EmptyInputError; an empty (zero-length) trajectory instead fails with an
IndexError when reading the origin point.  In both cases no statistics
report is produced. -/
theorem C3_empty_vs_none (areas : List ℚ) (t : ℚ) (units : String) :
    calc_individual_cell_statistics Option.none areas t units = .error .emptyData ∧
    calc_individual_cell_statistics (some []) areas t units = .error .indexError :=
  ⟨rfl, rfl⟩

/-- The seed is below a left fold of max. -/
theorem init_le_foldl_max {α : Type*} [LinearOrder α] (l : List α) (b : α) :
    b ≤ l.foldl Max.max b := by
  induction l generalizing b with
  | nil => exact le_refl b
  | cons x r ih => exact le_trans (le_max_left b x) (ih (Max.max b x))

/-- Every member is below a left fold of max. -/
theorem mem_le_foldl_max {α : Type*} [LinearOrder α] {a : α} {l : List α} (h : a ∈ l)
    (b : α) : a ≤ l.foldl Max.max b := by
  induction l generalizing b with
  | nil => cases h
  | cons x r ih =>
      rcases List.mem_cons.mp h with rfl | hm
      · exact le_trans (le_max_right b a) (init_le_foldl_max r _)
      · exact ih hm _

/-- Every member is below the Python maximum of its list. -/
theorem mem_le_pymaxD {a : ℝ} {l : List ℝ} (h : a ∈ l) : a ≤ pymaxD l := by
  match l, h with
  | x :: xs, h =>
      rcases List.mem_cons.mp h with rfl | hm
      · exact init_le_foldl_max xs a
      · exact mem_le_foldl_max hm x

/-- The default-valued last element of a nonempty list is a member. -/
theorem getLastD_mem {α : Type*} (x : α) (l : List α) (d : α) :
    (x :: l).getLastD d ∈ x :: l := by
  induction l generalizing x with
  | nil => simp
  | cons y r ih =>
      rw [List.getLastD_cons]
      exact List.mem_cons_of_mem x (ih y)

/-- C9: for every trajectory of length at least 2, the Final Distance from
Origin statistic is bounded by the Maximum Distance from Origin statistic,
because the final origin distance is one of the per-frame origin distances. -/
theorem C9_final_le_max_origin (T : List Point) (h : 2 ≤ T.length) :
    finalDistanceFromOrigin T ≤ maxOriginDistance T := by
  match T with
  | [] => simp at h
  | [p] => simp at h
  | p :: q :: rest =>
      have hmem : (q :: rest).getLastD (0, 0) ∈ q :: rest := getLastD_mem q rest (0, 0)
      have hmem2 : dist2 p ((q :: rest).getLastD (0, 0)) ∈ (q :: rest).map (dist2 p) :=
        List.mem_map_of_mem (dist2 p) hmem
      have hle := mem_le_pymaxD hmem2
      simpa [finalDistanceFromOrigin, maxOriginDistance, originDistances,
        lastLoopPoint] using hle

/-- Witness for C9 on the two-point trajectory (0,0) to (3,4). -/
theorem C9_witness :
    2 ≤ ([((0:ℚ), (0:ℚ)), ((3:ℚ), (4:ℚ))] : List Point).length ∧
    finalDistanceFromOrigin [((0:ℚ), (0:ℚ)), ((3:ℚ), (4:ℚ))] ≤
      maxOriginDistance [((0:ℚ), (0:ℚ)), ((3:ℚ), (4:ℚ))] :=
  ⟨by decide, C9_final_le_max_origin _ (by decide)⟩

/-- Indexing through zipWith. -/
theorem zipWith_getD {α β γ : Type*} (f : α → β → γ) (l1 : List α) (l2 : List β)
    (i : ℕ) (h1 : i < l1.length) (h2 : i < l2.length) (d : γ) (d1 : α) (d2 : β) :
    (List.zipWith f l1 l2).getD i d = f (l1.getD i d1) (l2.getD i d2) := by
  induction l1 generalizing l2 i with
  | nil => simp at h1
  | cons x xs ih =>
      cases l2 with
      | nil => simp at h2
      | cons y ys =>
          cases i with
          | zero => simp
          | succ n =>
              have h1n : n < xs.length := by simpa using h1
              have h2n : n < ys.length := by simpa using h2
              simpa [List.getD_cons_succ] using ih ys n h1n h2n

/-- Indexing through map. -/
theorem map_getD {α β : Type*} (f : α → β) (l : List α) (i : ℕ) (h : i < l.length)
    (d : β) (d1 : α) : (l.map f).getD i d = f (l.getD i d1) := by
  induction l generalizing i with
  | nil => simp at h
  | cons x xs ih =>
      cases i with
      | zero => simp
      | succ n => simpa using ih n (by simpa using h)

/-- Indexing into the tail shifts the index by one. -/
theorem tail_getD {α : Type*} (x : α) (xs : List α) (i : ℕ) (d : α) :
    (x :: xs).tail.getD i d = (x :: xs).getD (i + 1) d := by
  simp [List.getD_cons_succ]

/-- C10: the single-cell computation performs no placeholder filtering: for
every trajectory of length N at least 2 it produces exactly N-1 step
distances, N-1 speeds and N-1 direction angles, and each entry is computed
from the raw consecutive points, so a (0,0) placeholder frame contributes
real step distances and speeds. -/
theorem C10_no_filtering (T : List Point) (t : ℚ) (h : 2 ≤ T.length) :
    (indivDistances T).length = T.length - 1 ∧
    (indivSpeeds T t).length = T.length - 1 ∧
    (indivAngles T).length = T.length - 1 ∧
    (∀ i, i + 1 < T.length →
      (indivDistances T).getD i 0 = dist2 (T.getD i (0, 0)) (T.getD (i + 1) (0, 0)) ∧
      (indivSpeeds T t).getD i 0 =
        dist2 (T.getD i (0, 0)) (T.getD (i + 1) (0, 0)) / (t : ℝ) ∧
      (indivAngles T).getD i 0 = angleOf (T.getD i (0, 0)) (T.getD (i + 1) (0, 0))) := by
  have hlen : (indivDistances T).length = T.length - 1 := by
    simp [indivDistances, List.length_zipWith]
  have hlens : (indivSpeeds T t).length = T.length - 1 := by
    simp [indivSpeeds, hlen]
  have hlena : (indivAngles T).length = T.length - 1 := by
    simp [indivAngles, List.length_zipWith]
  refine ⟨hlen, hlens, hlena, ?_⟩
  intro i hi
  match T with
  | [] => simp at h
  | x :: xs =>
      have h1 : i < (x :: xs).length := by omega
      have h2 : i < (x :: xs).tail.length := by
        simp only [List.length_tail]
        omega
      have hd : (indivDistances (x :: xs)).getD i 0 =
          dist2 ((x :: xs).getD i (0, 0)) ((x :: xs).getD (i + 1) (0, 0)) := by
        rw [indivDistances, zipWith_getD dist2 _ _ i h1 h2 0 (0, 0) (0, 0), tail_getD]
      refine ⟨hd, ?_, ?_⟩
      · have hi2 : i < (indivDistances (x :: xs)).length := by
          rw [hlen]
          simpa using hi
        rw [indivSpeeds, map_getD _ _ i hi2 0 0, hd]
      · rw [indivAngles, zipWith_getD angleOf _ _ i h1 h2 0 (0, 0) (0, 0), tail_getD]

/-- Witness for C10 on a trajectory containing the placeholder as frame 0. -/
theorem C10_witness :
    2 ≤ ([((0:ℚ), (0:ℚ)), ((1:ℚ), (0:ℚ))] : List Point).length ∧
    ((indivDistances [((0:ℚ), (0:ℚ)), ((1:ℚ), (0:ℚ))]).length =
        ([((0:ℚ), (0:ℚ)), ((1:ℚ), (0:ℚ))] : List Point).length - 1 ∧
     (indivSpeeds [((0:ℚ), (0:ℚ)), ((1:ℚ), (0:ℚ))] 1).length =
        ([((0:ℚ), (0:ℚ)), ((1:ℚ), (0:ℚ))] : List Point).length - 1 ∧
     (indivAngles [((0:ℚ), (0:ℚ)), ((1:ℚ), (0:ℚ))]).length =
        ([((0:ℚ), (0:ℚ)), ((1:ℚ), (0:ℚ))] : List Point).length - 1 ∧
     (∀ i, i + 1 < ([((0:ℚ), (0:ℚ)), ((1:ℚ), (0:ℚ))] : List Point).length →
       (indivDistances [((0:ℚ), (0:ℚ)), ((1:ℚ), (0:ℚ))]).getD i 0 =
         dist2 (([((0:ℚ), (0:ℚ)), ((1:ℚ), (0:ℚ))] : List Point).getD i (0, 0))
           (([((0:ℚ), (0:ℚ)), ((1:ℚ), (0:ℚ))] : List Point).getD (i + 1) (0, 0)) ∧
       (indivSpeeds [((0:ℚ), (0:ℚ)), ((1:ℚ), (0:ℚ))] 1).getD i 0 =
         dist2 (([((0:ℚ), (0:ℚ)), ((1:ℚ), (0:ℚ))] : List Point).getD i (0, 0))
           (([((0:ℚ), (0:ℚ)), ((1:ℚ), (0:ℚ))] : List Point).getD (i + 1) (0, 0)) / ((1:ℚ) : ℝ) ∧
       (indivAngles [((0:ℚ), (0:ℚ)), ((1:ℚ), (0:ℚ))]).getD i 0 =
         angleOf (([((0:ℚ), (0:ℚ)), ((1:ℚ), (0:ℚ))] : List Point).getD i (0, 0))
           (([((0:ℚ), (0:ℚ)), ((1:ℚ), (0:ℚ))] : List Point).getD (i + 1) (0, 0)))) :=
  ⟨by decide, C10_no_filtering [((0:ℚ), (0:ℚ)), ((1:ℚ), (0:ℚ))] 1 (by decide)⟩

/-- Bounds of the Python rounding of a value in (0, 8]. -/
theorem pyround_bounds {x : ℝ} (h0 : 0 < x) (h8 : x ≤ 8) :
    0 ≤ pyround x ∧ pyround x ≤ 8 := by
  unfold pyround
  have hfl : (0:ℤ) ≤ ⌊x⌋ := Int.floor_nonneg.mpr h0.le
  have hxf := Int.floor_le x
  have hxc := Int.lt_floor_add_one x
  split_ifs with hf he
  · constructor
    · exact hfl
    · have hr : (⌊x⌋ : ℝ) + 1 / 2 = x := by
        have hfr := Int.floor_add_fract x
        rw [hf] at hfr
        linarith
      have h8r : (⌊x⌋ : ℝ) < 8 := by linarith
      have h8i : ⌊x⌋ < 8 := by exact_mod_cast h8r
      omega
  · constructor
    · omega
    · have hr : (⌊x⌋ : ℝ) + 1 / 2 = x := by
        have hfr := Int.floor_add_fract x
        rw [hf] at hfr
        linarith
      have h7 : (⌊x⌋ : ℝ) < 8 := by linarith
      have h7i : ⌊x⌋ < 8 := by exact_mod_cast h7
      omega
  · rw [round_eq]
    constructor
    · exact Int.floor_nonneg.mpr (by linarith)
    · have hle : (⌊x + 1 / 2⌋ : ℝ) ≤ x + 1 / 2 := Int.floor_le _
      have h9 : (⌊x + 1 / 2⌋ : ℝ) < 9 := by linarith
      have h9i : ⌊x + 1 / 2⌋ < 9 := by exact_mod_cast h9
      omega

/-- Python rounding of the 360-degree boundary sector index. -/
theorem pyround_eight : pyround ((360:ℝ) / 45) = 8 := by
  have h : (360:ℝ) / 45 = ((8:ℤ) : ℝ) := by norm_num
  rw [h]
  unfold pyround
  rw [Int.fract_intCast]
  norm_num

/-- Python rounding of the 0-degree sector index. -/
theorem pyround_zeroDeg : pyround ((0:ℝ) / 45) = 0 := by
  have h : (0:ℝ) / 45 = ((0:ℤ) : ℝ) := by norm_num
  rw [h]
  unfold pyround
  rw [Int.fract_intCast]
  norm_num

/-- Python rounding of the 45-degree sector index. -/
theorem pyround_oneDeg : pyround ((45:ℝ) / 45) = 1 := by
  have h : (45:ℝ) / 45 = ((1:ℤ) : ℝ) := by norm_num
  rw [h]
  unfold pyround
  rw [Int.fract_intCast]
  norm_num

/-- C7: the compass classification round(final_angle / 45) always indexes
within the bounds of the 9-entry lookup table for every final angle the
reflected formula can produce; the 360-degree boundary classifies as "E"
rather than indexing out of range, 0 degrees maps to "E" and 45 degrees
maps to "NE". -/
theorem C7_compass_in_bounds :
    (∀ p q : Point, ∃ s,
      pyListGet compass_brackets (pyround (angleOf p q / 45)) = some s) ∧
    pyListGet compass_brackets (pyround ((360:ℝ) / 45)) = some "E" ∧
    pyListGet compass_brackets (pyround ((0:ℝ) / 45)) = some "E" ∧
    pyListGet compass_brackets (pyround ((45:ℝ) / 45)) = some "NE" := by
  refine ⟨?_, ?_, ?_, ?_⟩
  · intro p q
    obtain ⟨ha0, ha360⟩ := angleOf_mem_Ioc p q
    have hd0 : 0 < angleOf p q / 45 := by positivity
    have hd8 : angleOf p q / 45 ≤ 8 := by
      rw [div_le_iff₀ (by norm_num : (0:ℝ) < 45)]
      linarith
    obtain ⟨hl, hu⟩ := pyround_bounds hd0 hd8
    unfold pyListGet
    rw [if_pos hl]
    have hlt : (pyround (angleOf p q / 45)).toNat < compass_brackets.length := by
      have h9 : (pyround (angleOf p q / 45)).toNat ≤ 8 := by omega
      simp only [compass_brackets, List.length]
      omega
    exact ⟨_, List.get?_eq_get hlt⟩
  · rw [pyround_eight]
    rfl
  · rw [pyround_zeroDeg]
    rfl
  · rw [pyround_oneDeg]
    rfl

/-- C8: the culture raw-data CSV export always fails with
FileAlreadyExistsError whenever the filename ends in .csv and the target
file already exists, regardless of the existing contents and of the data to
be written; the extension and existence checks happen before any row is
assembled or any file is touched, so nothing is appended or overwritten. -/
theorem C8_existing_csv_fails (fs : List (String × CsvFile)) (filename : String)
    (pos : List (ℕ × List Point)) (ad : List (ℕ × List ℚ))
    (positional_headers area_headers : List String)
    (hcsv : strEndsWith filename ".csv" = true)
    (hex : fs.any (fun f => f.1 == filename) = true) :
    culture_to_csv_file fs filename pos ad positional_headers area_headers =
      .error .fileAlreadyExists := by
  unfold culture_to_csv_file
  rw [if_neg (by simp [hcsv]), if_pos hex]

/-- Witness for C8: an existing out.csv with arbitrary content makes the
export fail with FileAlreadyExistsError. -/
theorem C8_witness :
    strEndsWith "out.csv" ".csv" = true ∧
    ([(("out.csv" : String), (⟨["h"], [[1]]⟩ : CsvFile))].any
      (fun f => f.1 == "out.csv")) = true ∧
    culture_to_csv_file [("out.csv", ⟨["h"], [[1]]⟩)] "out.csv"
      [(0, [(1, 2)])] [(0, [3])] [] [] = .error .fileAlreadyExists :=
  ⟨by decide, by decide,
   C8_existing_csv_fails _ _ _ _ _ _ (by decide) (by decide)⟩

/-- On a cell whose first-nonzero lookup succeeds, the area-loop iteration
returns the total description. -/
theorem areaStep_eq_ok (acc : AreaAcc) (k : ℕ) (a : ℚ) (v : List ℚ) (w : ℚ)
    (hw : (a :: v).find? (fun x => x != 0) = some w) :
    areaStep acc k (a :: v) = .ok (pureAreaStep acc k (a :: v)) := by
  cases acc
  simp only [areaStep, pureAreaStep]
  rw [hw]
  split_ifs <;> simp_all

/-- On a culture where every cell has a nonempty series containing a
nonzero value, the area loop succeeds and returns the total description. -/
theorem cultureAreaAux_eq_pure (ad : List (ℕ × List ℚ)) :
    ∀ acc : AreaAcc, (∀ kv ∈ ad, kv.2 ≠ []) → (∀ kv ∈ ad, ∃ x ∈ kv.2, x ≠ 0) →
    cultureAreaAux ad acc = .ok (pureAreaFold ad acc) := by
  induction ad with
  | nil =>
      intro acc h1 h2
      rfl
  | cons kv rest ih =>
      intro acc h1 h2
      obtain ⟨a, v, hv⟩ : ∃ a v, kv.2 = a :: v := by
        cases hkv : kv.2 with
        | nil => exact absurd hkv (h1 kv (List.mem_cons_self kv rest))
        | cons a v => exact ⟨a, v, rfl⟩
      obtain ⟨x, hx, hx0⟩ := h2 kv (List.mem_cons_self kv rest)
      have hsome : ((a :: v).find? (fun y => y != 0)).isSome := by
        rw [List.find?_isSome]
        refine ⟨x, ?_, by simpa using hx0⟩
        rw [← hv]
        exact hx
      obtain ⟨w, hw⟩ := Option.isSome_iff_exists.mp hsome
      have hstep : areaStep acc kv.1 kv.2 = .ok (pureAreaStep acc kv.1 kv.2) := by
        rw [hv]
        exact areaStep_eq_ok acc kv.1 a v w hw
      simp only [cultureAreaAux]
      rw [hstep]
      exact ih _ (fun x hx => h1 x (List.mem_cons_of_mem kv hx))
        (fun x hx => h2 x (List.mem_cons_of_mem kv hx))

/-- An empty series leaves the accumulator unchanged. -/
theorem pureAreaStep_nil (acc : AreaAcc) (k : ℕ) : pureAreaStep acc k [] = acc := rfl

/-- Projection of the iteration on the running maximum. -/
theorem pureAreaStep_max (acc : AreaAcc) (k : ℕ) (a : ℚ) (v : List ℚ) :
    (pureAreaStep acc k (a :: v)).max_cell_size =
      if acc.max_cell_size < cellMax (a :: v) then cellMax (a :: v)
      else acc.max_cell_size := rfl

/-- Projection of the iteration on the running maximum owner. -/
theorem pureAreaStep_max_id (acc : AreaAcc) (k : ℕ) (a : ℚ) (v : List ℚ) :
    (pureAreaStep acc k (a :: v)).max_cell_id =
      if acc.max_cell_size < cellMax (a :: v) then k else acc.max_cell_id := rfl

/-- Projection of the iteration on the running minimum. -/
theorem pureAreaStep_min (acc : AreaAcc) (k : ℕ) (a : ℚ) (v : List ℚ) :
    (pureAreaStep acc k (a :: v)).min_cell_size =
      if minQual acc.min_cell_size (cellMin (a :: v)) then some (cellMin (a :: v))
      else acc.min_cell_size := rfl

/-- Projection of the iteration on the final-size accumulator. -/
theorem pureAreaStep_final (acc : AreaAcc) (k : ℕ) (a : ℚ) (v : List ℚ) :
    (pureAreaStep acc k (a :: v)).final_sizes =
      acc.final_sizes ++ [(a :: v).getLastD 0] := rfl

/-- The running maximum never decreases along the area loop. -/
theorem pureAreaFold_max_mono (ad : List (ℕ × List ℚ)) :
    ∀ acc : AreaAcc, acc.max_cell_size ≤ (pureAreaFold ad acc).max_cell_size := by
  induction ad with
  | nil => intro acc; exact le_refl _
  | cons kv rest ih =>
      intro acc
      simp only [pureAreaFold]
      refine le_trans ?_ (ih (pureAreaStep acc kv.1 kv.2))
      cases hkv : kv.2 with
      | nil => rw [pureAreaStep_nil]
      | cons a v =>
          rw [pureAreaStep_max]
          split_ifs with h
          · exact le_of_lt h
          · exact le_refl _

/-- Every nonempty per-cell maximum is below the loop result. -/
theorem pureAreaFold_max_ub (ad : List (ℕ × List ℚ)) :
    ∀ acc : AreaAcc, (∀ kv ∈ ad, kv.2 ≠ []) →
    ∀ kv ∈ ad, cellMax kv.2 ≤ (pureAreaFold ad acc).max_cell_size := by
  induction ad with
  | nil =>
      intro acc h1 kv h
      cases h
  | cons kv0 rest ih =>
      intro acc h1 kv h
      simp only [pureAreaFold]
      rcases List.mem_cons.mp h with rfl | hm
      · refine le_trans ?_ (pureAreaFold_max_mono rest _)
        obtain ⟨a, v, hkv⟩ : ∃ a v, kv.2 = a :: v := by
          cases hkv2 : kv.2 with
          | nil => exact absurd hkv2 (h1 kv (List.mem_cons_self kv rest))
          | cons a v => exact ⟨a, v, rfl⟩
        rw [hkv, pureAreaStep_max]
        split_ifs with hlt
        · exact le_refl _
        · exact le_of_not_lt hlt
      · exact ih _ (fun x hx => h1 x (List.mem_cons_of_mem kv0 hx)) kv hm

/-- If the loop leaves the running maximum unchanged, it leaves its owner
unchanged as well. -/
theorem pureAreaFold_max_stable (ad : List (ℕ × List ℚ)) :
    ∀ acc : AreaAcc,
    (pureAreaFold ad acc).max_cell_size = acc.max_cell_size →
    (pureAreaFold ad acc).max_cell_id = acc.max_cell_id := by
  induction ad with
  | nil =>
      intro acc h
      rfl
  | cons kv rest ih =>
      intro acc h
      simp only [pureAreaFold] at h ⊢
      cases hkv : kv.2 with
      | nil =>
          rw [hkv] at h
          rw [pureAreaStep_nil] at h ⊢
          exact ih acc h
      | cons a v =>
          rw [hkv] at h
          by_cases hlt : acc.max_cell_size < cellMax (a :: v)
          · exfalso
            have h1 : (pureAreaStep acc kv.1 (a :: v)).max_cell_size = cellMax (a :: v) := by
              rw [pureAreaStep_max, if_pos hlt]
            have h2 := pureAreaFold_max_mono rest (pureAreaStep acc kv.1 (a :: v))
            rw [h1] at h2
            rw [h] at h2
            exact absurd h2 (not_le_of_lt hlt)
          · have h1 : (pureAreaStep acc kv.1 (a :: v)).max_cell_size = acc.max_cell_size := by
              rw [pureAreaStep_max, if_neg hlt]
            have h2 : (pureAreaStep acc kv.1 (a :: v)).max_cell_id = acc.max_cell_id := by
              rw [pureAreaStep_max_id, if_neg hlt]
            rw [← h1] at h
            rw [← h2]
            exact ih _ h

/-- First-wins characterization of the running maximum owner: whenever the
loop strictly increases the running maximum, the owner id is the first cell
whose series maximum equals the final running maximum. -/
theorem pureAreaFold_max_find (ad : List (ℕ × List ℚ)) :
    ∀ acc : AreaAcc, (∀ kv ∈ ad, kv.2 ≠ []) →
    acc.max_cell_size < (pureAreaFold ad acc).max_cell_size →
    (ad.find? (fun kv => cellMax kv.2 == (pureAreaFold ad acc).max_cell_size)).map
        Prod.fst = some (pureAreaFold ad acc).max_cell_id := by
  induction ad with
  | nil =>
      intro acc h1 hlt
      exact absurd hlt (lt_irrefl _)
  | cons kv rest ih =>
      intro acc h1 hlt
      obtain ⟨a, v, hkv⟩ : ∃ a v, kv.2 = a :: v := by
        cases hkv2 : kv.2 with
        | nil => exact absurd hkv2 (h1 kv (List.mem_cons_self kv rest))
        | cons a v => exact ⟨a, v, rfl⟩
      simp only [pureAreaFold] at hlt ⊢
      by_cases hA : acc.max_cell_size < cellMax kv.2
      · have hsmax : (pureAreaStep acc kv.1 kv.2).max_cell_size = cellMax kv.2 := by
          rw [hkv, pureAreaStep_max, ← hkv, if_pos (by rw [hkv] at hA ⊢; exact hA)]
        have hsid : (pureAreaStep acc kv.1 kv.2).max_cell_id = kv.1 := by
          rw [hkv, pureAreaStep_max_id, ← hkv, if_pos (by rw [hkv] at hA ⊢; exact hA)]
        by_cases hB : (pureAreaFold rest (pureAreaStep acc kv.1 kv.2)).max_cell_size =
            (pureAreaStep acc kv.1 kv.2).max_cell_size
        · have hstab := pureAreaFold_max_stable rest _ hB
          rw [List.find?_cons_of_pos _ (by rw [hB, hsmax]; exact beq_self_eq_true _)]
          rw [hstab, hsid]
          rfl
        · have hlt2 : (pureAreaStep acc kv.1 kv.2).max_cell_size <
              (pureAreaFold rest (pureAreaStep acc kv.1 kv.2)).max_cell_size :=
            lt_of_le_of_ne (pureAreaFold_max_mono rest _) (Ne.symm hB)
          have hfind := ih (pureAreaStep acc kv.1 kv.2)
            (fun x hx => h1 x (List.mem_cons_of_mem kv hx)) hlt2
          rw [List.find?_cons_of_neg _ ?_]
          · exact hfind
          · rw [hsmax] at hlt2
            simp only [beq_iff_eq]
            exact fun hc => absurd hc (ne_of_lt hlt2)
      · have hsmax : (pureAreaStep acc kv.1 kv.2).max_cell_size = acc.max_cell_size := by
          rw [hkv, pureAreaStep_max, ← hkv, if_neg (by rw [hkv] at hA ⊢; exact hA)]
        have hlt2 : (pureAreaStep acc kv.1 kv.2).max_cell_size <
            (pureAreaFold rest (pureAreaStep acc kv.1 kv.2)).max_cell_size := by
          rw [hsmax]
          exact hlt
        have hfind := ih (pureAreaStep acc kv.1 kv.2)
          (fun x hx => h1 x (List.mem_cons_of_mem kv hx)) hlt2
        rw [List.find?_cons_of_neg _ ?_]
        · exact hfind
        · simp only [beq_iff_eq]
          intro hc
          rw [hsmax] at hlt2
          have : cellMax kv.2 ≤ acc.max_cell_size := le_of_not_lt hA
          rw [hc] at this
          exact absurd (lt_of_le_of_lt this hlt2) (lt_irrefl _)

/-- A running minimum, once set, stays set and never increases. -/
theorem pureAreaFold_min_some (ad : List (ℕ × List ℚ)) :
    ∀ (acc : AreaAcc) (m0 : ℚ), acc.min_cell_size = some m0 →
    ∃ m1, (pureAreaFold ad acc).min_cell_size = some m1 ∧ m1 ≤ m0 := by
  induction ad with
  | nil =>
      intro acc m0 h
      exact ⟨m0, h, le_refl _⟩
  | cons kv rest ih =>
      intro acc m0 h
      simp only [pureAreaFold]
      cases hkv : kv.2 with
      | nil =>
          rw [pureAreaStep_nil]
          exact ih acc m0 h
      | cons a v =>
          by_cases hq : minQual acc.min_cell_size (cellMin (a :: v)) = true
          · have hs : (pureAreaStep acc kv.1 (a :: v)).min_cell_size =
                some (cellMin (a :: v)) := by
              rw [pureAreaStep_min, if_pos hq]
            obtain ⟨m1, hm1, hle⟩ := ih _ _ hs
            refine ⟨m1, hm1, ?_⟩
            have hlt : cellMin (a :: v) < m0 := by
              unfold minQual at hq
              rw [h] at hq
              simp only [Bool.and_eq_true, bne_iff_ne, decide_eq_true_eq] at hq
              exact hq.2
            linarith
          · have hs : (pureAreaStep acc kv.1 (a :: v)).min_cell_size =
                acc.min_cell_size := by
              rw [pureAreaStep_min, if_neg hq]
            exact ih _ m0 (hs.trans h)

/-- The loop reports the minimum as None exactly when it started as None and
every per-cell minimum (zeros included) is zero. -/
theorem pureAreaFold_min_none_iff (ad : List (ℕ × List ℚ)) : ∀ acc : AreaAcc,
    ((pureAreaFold ad acc).min_cell_size = Option.none ↔
      acc.min_cell_size = Option.none ∧ ∀ kv ∈ ad, cellMin kv.2 = 0) := by
  induction ad with
  | nil =>
      intro acc
      simp [pureAreaFold]
  | cons kv rest ih =>
      intro acc
      simp only [pureAreaFold]
      rw [ih]
      constructor
      · rintro ⟨hstep, hall⟩
        cases hkv : kv.2 with
        | nil =>
            rw [hkv, pureAreaStep_nil] at hstep
            refine ⟨hstep, fun kv2 hm => ?_⟩
            rcases List.mem_cons.mp hm with rfl | hm2
            · rw [hkv]
              rfl
            · exact hall kv2 hm2
        | cons a v =>
            rw [hkv, pureAreaStep_min] at hstep
            by_cases hq : minQual acc.min_cell_size (cellMin (a :: v)) = true
            · rw [if_pos hq] at hstep
              exact absurd hstep (by simp)
            · rw [if_neg hq] at hstep
              have hmn : cellMin (a :: v) = 0 := by
                unfold minQual at hq
                rw [hstep] at hq
                simpa using hq
              refine ⟨hstep, fun kv2 hm => ?_⟩
              rcases List.mem_cons.mp hm with rfl | hm2
              · rw [hkv]
                exact hmn
              · exact hall kv2 hm2
      · rintro ⟨hnone, hall⟩
        refine ⟨?_, fun kv2 hm => hall kv2 (List.mem_cons_of_mem kv hm)⟩
        cases hkv : kv.2 with
        | nil =>
            rw [pureAreaStep_nil]
            exact hnone
        | cons a v =>
            have hmn : cellMin (a :: v) = 0 := by
              have hh := hall kv (List.mem_cons_self kv rest)
              rw [hkv] at hh
              exact hh
            rw [pureAreaStep_min, if_neg ?_]
            · exact hnone
            · unfold minQual
              simp [hmn]

/-- Lower-bound property: every cell whose series minimum is nonzero pushes
the final running minimum at or below that value. -/
theorem pureAreaFold_min_lb (ad : List (ℕ × List ℚ)) :
    ∀ acc : AreaAcc, ∀ kv ∈ ad, cellMin kv.2 ≠ 0 →
    ∃ m1, (pureAreaFold ad acc).min_cell_size = some m1 ∧ m1 ≤ cellMin kv.2 := by
  induction ad with
  | nil =>
      intro acc kv h
      cases h
  | cons kv0 rest ih =>
      intro acc kv hmem hne
      simp only [pureAreaFold]
      rcases List.mem_cons.mp hmem with rfl | hm
      · cases hkv : kv.2 with
        | nil =>
            rw [hkv] at hne
            exact absurd rfl hne
        | cons a v =>
            rw [hkv] at hne
            by_cases hq : minQual acc.min_cell_size (cellMin (a :: v)) = true
            · have hs : (pureAreaStep acc kv.1 (a :: v)).min_cell_size =
                  some (cellMin (a :: v)) := by
                rw [pureAreaStep_min, if_pos hq]
              exact pureAreaFold_min_some rest _ _ hs
            · obtain ⟨m, hm, hge⟩ : ∃ m, acc.min_cell_size = some m ∧
                  m ≤ cellMin (a :: v) := by
                unfold minQual at hq
                cases ho : acc.min_cell_size with
                | none =>
                    rw [ho] at hq
                    simp [hne] at hq
                | some m =>
                    rw [ho] at hq
                    simp only [Bool.and_eq_true, bne_iff_ne, decide_eq_true_eq] at hq
                    rw [not_and] at hq
                    exact ⟨m, rfl, le_of_not_lt (hq hne)⟩
              have hs : (pureAreaStep acc kv.1 (a :: v)).min_cell_size =
                  acc.min_cell_size := by
                rw [pureAreaStep_min, if_neg hq]
              obtain ⟨m1, hm1, hle⟩ :=
                pureAreaFold_min_some rest (pureAreaStep acc kv.1 (a :: v)) m
                  (hs.trans hm)
              exact ⟨m1, hm1, le_trans hle hge⟩
      · exact ih (pureAreaStep acc kv0.1 kv0.2) kv hm hne

/-- Attainment: a final running minimum either was already present or is the
nonzero series minimum of some cell of the culture. -/
theorem pureAreaFold_min_mem (ad : List (ℕ × List ℚ)) :
    ∀ (acc : AreaAcc) (m : ℚ),
    (pureAreaFold ad acc).min_cell_size = some m →
    acc.min_cell_size = some m ∨ (m ≠ 0 ∧ ∃ kv ∈ ad, cellMin kv.2 = m) := by
  induction ad with
  | nil =>
      intro acc m h
      exact Or.inl h
  | cons kv rest ih =>
      intro acc m h
      simp only [pureAreaFold] at h
      rcases ih _ _ h with hs | ⟨hne, kv2, hmem, hcm⟩
      · cases hkv : kv.2 with
        | nil =>
            rw [hkv, pureAreaStep_nil] at hs
            exact Or.inl hs
        | cons a v =>
            rw [hkv, pureAreaStep_min] at hs
            split_ifs at hs with hq
            · have hmeq : cellMin (a :: v) = m := by
                simpa using hs
              refine Or.inr ⟨?_, kv, List.mem_cons_self kv rest, by rw [hkv]; exact hmeq⟩
              unfold minQual at hq
              simp only [Bool.and_eq_true, bne_iff_ne] at hq
              rw [← hmeq]
              exact hq.1
            · exact Or.inl hs
      · exact Or.inr ⟨hne, kv2, List.mem_cons_of_mem kv hmem, hcm⟩

/-- Each cell with a nonempty series appends exactly one final size. -/
theorem pureAreaFold_final_len (ad : List (ℕ × List ℚ)) :
    ∀ acc : AreaAcc, (∀ kv ∈ ad, kv.2 ≠ []) →
    (pureAreaFold ad acc).final_sizes.length = acc.final_sizes.length + ad.length := by
  induction ad with
  | nil =>
      intro acc h
      simp [pureAreaFold]
  | cons kv rest ih =>
      intro acc h
      simp only [pureAreaFold]
      obtain ⟨a, v, hkv⟩ : ∃ a v, kv.2 = a :: v := by
        cases hkv2 : kv.2 with
        | nil => exact absurd hkv2 (h kv (List.mem_cons_self kv rest))
        | cons a v => exact ⟨a, v, rfl⟩
      rw [ih _ (fun x hx => h x (List.mem_cons_of_mem kv hx))]
      rw [hkv, pureAreaStep_final]
      simp only [List.length_append, List.length_cons, List.length_nil]
      omega

/-- C5 (counterexample): for the culture with areas cell 1 -> [0, 5] and
cell 2 -> [7, 7], the loop reports the smallest cell as 7 (cell 2), even
though 5 is a nonzero recorded area smaller than 7: a cell whose series
contains a zero is skipped entirely rather than having only its zero values
ignored. -/
theorem C5_counterexample :
    cultureArea [(1, [0, 5]), (2, [7, 7])] =
      .ok ⟨[5, 7], [0, 0], 7, 2, some 7, 2⟩ ∧
    (5:ℚ) ∈ [(0:ℚ), 5] ∧ (5:ℚ) ≠ 0 ∧ (5:ℚ) < 7 := by
  refine ⟨?_, by decide, by decide, by decide⟩
  norm_num [cultureArea, cultureAreaAux, areaStep, cellMin, cellMax, minQual, areaAcc0]

/-- C5 (amended): on a culture where every cell has a nonempty area series
containing a nonzero value, the area loop completes without error; the
reported largest cell bounds every per-cell maximum and, when positive, is
owned by the first cell attaining it (strict greater-than comparison, first
cell wins ties); the reported smallest cell is the running minimum of
per-cell series minima restricted to cells whose whole-series minimum is
nonzero (a cell containing any zero area is skipped entirely), and it is
reported as absent (None) exactly when every per-cell minimum is zero. -/
theorem C5_extrema (ad : List (ℕ × List ℚ))
    (h1 : ∀ kv ∈ ad, kv.2 ≠ [])
    (h2 : ∀ kv ∈ ad, ∃ x ∈ kv.2, x ≠ 0) :
    ∃ r, cultureArea ad = .ok r ∧
      (∀ kv ∈ ad, cellMax kv.2 ≤ r.max_cell_size) ∧
      (0 < r.max_cell_size →
        (ad.find? (fun kv => cellMax kv.2 == r.max_cell_size)).map Prod.fst =
          some r.max_cell_id) ∧
      (r.min_cell_size = Option.none ↔ ∀ kv ∈ ad, cellMin kv.2 = 0) ∧
      (∀ kv ∈ ad, cellMin kv.2 ≠ 0 →
        ∃ m, r.min_cell_size = some m ∧ m ≤ cellMin kv.2) ∧
      (∀ m, r.min_cell_size = some m → m ≠ 0 ∧ ∃ kv ∈ ad, cellMin kv.2 = m) := by
  refine ⟨pureAreaFold ad areaAcc0, ?_, ?_, ?_, ?_, ?_, ?_⟩
  · unfold cultureArea
    exact cultureAreaAux_eq_pure ad areaAcc0 h1 h2
  · exact pureAreaFold_max_ub ad areaAcc0 h1
  · intro h0
    exact pureAreaFold_max_find ad areaAcc0 h1 h0
  · rw [pureAreaFold_min_none_iff]
    simp [areaAcc0]
  · exact pureAreaFold_min_lb ad areaAcc0
  · intro m hm
    rcases pureAreaFold_min_mem ad areaAcc0 m hm with h | h
    · exact absurd h (by simp [areaAcc0])
    · exact h

/-- Witness for C5 on the counterexample culture. -/
theorem C5_witness :
    (∀ kv ∈ ([(1, [0, 5]), (2, [7, 7])] : List (ℕ × List ℚ)), kv.2 ≠ []) ∧
    (∀ kv ∈ ([(1, [0, 5]), (2, [7, 7])] : List (ℕ × List ℚ)), ∃ x ∈ kv.2, x ≠ 0) ∧
    (∃ r, cultureArea [(1, [0, 5]), (2, [7, 7])] = .ok r ∧
      (∀ kv ∈ ([(1, [0, 5]), (2, [7, 7])] : List (ℕ × List ℚ)),
        cellMax kv.2 ≤ r.max_cell_size) ∧
      (0 < r.max_cell_size →
        (([(1, [0, 5]), (2, [7, 7])] : List (ℕ × List ℚ)).find?
            (fun kv => cellMax kv.2 == r.max_cell_size)).map Prod.fst =
          some r.max_cell_id) ∧
      (r.min_cell_size = Option.none ↔
        ∀ kv ∈ ([(1, [0, 5]), (2, [7, 7])] : List (ℕ × List ℚ)), cellMin kv.2 = 0) ∧
      (∀ kv ∈ ([(1, [0, 5]), (2, [7, 7])] : List (ℕ × List ℚ)), cellMin kv.2 ≠ 0 →
        ∃ m, r.min_cell_size = some m ∧ m ≤ cellMin kv.2) ∧
      (∀ m, r.min_cell_size = some m → m ≠ 0 ∧
        ∃ kv ∈ ([(1, [0, 5]), (2, [7, 7])] : List (ℕ × List ℚ)), cellMin kv.2 = m)) :=
  ⟨by decide, by decide, C5_extrema [(1, [0, 5]), (2, [7, 7])] (by decide) (by decide)⟩

/-- C2 (amended): if no cell produced any displacement, and additionally
every cell has a nonempty area series containing a nonzero value (otherwise
the growth lookup raises StopIteration before a report exists), the culture
has at least one cell and the frame area is nonzero, then the culture report
is produced without any division by zero and contains exactly the
confluency, largest-cell, smallest-cell and average-final-size keys: every
movement-derived key is omitted. -/
theorem C2_no_movement_keys (pos : List (ℕ × Option (List Point)))
    (ad : List (ℕ × List ℚ)) (t A : ℚ) (units : String) (macc : MoveAcc)
    (hm : cultureMovement pos t = .ok macc)
    (hd : macc.displacements = [])
    (hne : ad ≠ [])
    (h1 : ∀ kv ∈ ad, kv.2 ≠ [])
    (h2 : ∀ kv ∈ ad, ∃ x ∈ kv.2, x ≠ 0)
    (hA : A ≠ 0) :
    ∃ rep, calc_culture_cell_statistics pos ad t A units = .ok rep ∧
      rep.map Prod.fst =
        ["Final Frame\x27s Confluency (%)",
         "Largest Cell (" ++ units ++ "^2)",
         "Largest Cell\x27s ID",
         "Smallest Cell (" ++ units ++ "^2)",
         "Smallest Cell\x27s ID",
         "Average Final Size of Cell (" ++ units ++ "^2)"] := by
  have ha : cultureArea ad = .ok (pureAreaFold ad areaAcc0) :=
    cultureAreaAux_eq_pure ad areaAcc0 h1 h2
  have hlen : (pureAreaFold ad areaAcc0).final_sizes.length ≠ 0 := by
    rw [pureAreaFold_final_len ad areaAcc0 h1]
    simp only [areaAcc0, List.length_nil, Nat.zero_add]
    exact fun hc => hne (List.length_eq_zero.mp hc)
  have hlenq : ((pureAreaFold ad areaAcc0).final_sizes.length : ℚ) ≠ 0 :=
    Nat.cast_ne_zero.mpr hlen
  refine ⟨[("Final Frame\x27s Confluency (%)",
      StatValue.rat ((pureAreaFold ad areaAcc0).final_sizes.sum / A)),
    ("Largest Cell (" ++ units ++ "^2)",
      StatValue.rat (pureAreaFold ad areaAcc0).max_cell_size),
    ("Largest Cell\x27s ID", StatValue.nat (pureAreaFold ad areaAcc0).max_cell_id),
    ("Smallest Cell (" ++ units ++ "^2)",
      match (pureAreaFold ad areaAcc0).min_cell_size with
      | Option.none => StatValue.pynone
      | some q => StatValue.rat q),
    ("Smallest Cell\x27s ID", StatValue.nat (pureAreaFold ad areaAcc0).min_cell_id),
    ("Average Final Size of Cell (" ++ units ++ "^2)",
      StatValue.rat ((pureAreaFold ad areaAcc0).final_sizes.sum /
        ((pureAreaFold ad areaAcc0).final_sizes.length : ℚ)))], ?_, ?_⟩
  · unfold calc_culture_cell_statistics
    rw [hm, ha]
    simp only [Except.bind, Bind.bind, hd, qdiv, if_neg hA, if_neg hlenq, pure,
      Except.pure, List.nil_append]
  · simp

/-- The positional loop on a single cell tracked for one frame contributes
no step and no displacement. -/
theorem cultureMovement_single_frame :
    cultureMovement [(0, some [((1:ℚ), (1:ℚ))])] 1 = .ok ⟨[], [], [], []⟩ := by
  simp [cultureMovement, cultureMovementAux, cellStep, culturePairs,
    List.mapM.loop, Except.pure]

/-- C2 (counterexample): a culture with one cell tracked for a single frame
whose area series is all zeros produces no displacement, yet the statistics
computation raises StopIteration at the growth lookup instead of returning a
report with the confluency and size keys. -/
theorem C2_counterexample :
    calc_culture_cell_statistics [(0, some [((1:ℚ), (1:ℚ))])] [(0, [0])] 1 4 "mm" =
      .error .stopIteration := by
  unfold calc_culture_cell_statistics
  rw [cultureMovement_single_frame]
  have ha : cultureArea [(0, [0])] = .error .stopIteration := by
    simp [cultureArea, cultureAreaAux, areaStep, cellMin, cellMax, minQual]
  rw [ha]
  simp [Except.bind, Bind.bind]

/-- Witness for C2: a single cell tracked for one frame with one measured
area; the report carries exactly the six always-computed keys. -/
theorem C2_witness :
    cultureMovement [(0, some [((1:ℚ), (1:ℚ))])] 1 = .ok ⟨[], [], [], []⟩ ∧
    (MoveAcc.mk [] [] [] []).displacements = [] ∧
    ([((0:ℕ), [(2:ℚ)])] : List (ℕ × List ℚ)) ≠ [] ∧
    (∀ kv ∈ ([(0, [2])] : List (ℕ × List ℚ)), kv.2 ≠ []) ∧
    (∀ kv ∈ ([(0, [2])] : List (ℕ × List ℚ)), ∃ x ∈ kv.2, x ≠ 0) ∧
    (4:ℚ) ≠ 0 ∧
    (∃ rep, calc_culture_cell_statistics [(0, some [((1:ℚ), (1:ℚ))])]
        [(0, [2])] 1 4 "mm" = .ok rep ∧
      rep.map Prod.fst =
        ["Final Frame\x27s Confluency (%)",
         "Largest Cell (" ++ "mm" ++ "^2)",
         "Largest Cell\x27s ID",
         "Smallest Cell (" ++ "mm" ++ "^2)",
         "Smallest Cell\x27s ID",
         "Average Final Size of Cell (" ++ "mm" ++ "^2)"]) :=
  ⟨cultureMovement_single_frame, rfl, by decide, by decide, by decide, by decide,
   C2_no_movement_keys [(0, some [((1:ℚ), (1:ℚ))])] [(0, [2])] 1 4 "mm"
     ⟨[], [], [], []⟩ cultureMovement_single_frame rfl (by decide) (by decide)
     (by decide) (by decide)⟩
